import Mathlib

/-!
# HelloApp (CUGL haptics demo): embedding of `source/HelloApp.cpp`

The application object owns three `float` fields (`_intensity`, `_sharpness`,
`_duration`), three label widgets showing them, and eight button listeners
registered by `buildScene`.  A finite floating-point value is embedded as the
rational number it denotes, and floating-point arithmetic as exact arithmetic
followed by rounding; the label widgets are embedded by their text; calls into
the engine (haptics singleton, logger, lifecycle) by a trace of `EngineCall`s
that every operation extends on the right.
-/

namespace HelloApp

/-! ## Single- and double-precision arithmetic

The three fields are `float`s: `std::min(_intensity, 1.0f)` and
`std::max(0.0f, _duration)` only type-check for `float` arguments.  The literal
`0.1` in `_intensity += 0.1` is a `double`, so the field is promoted to double,
the sum is formed in double precision and converted back to `float` on
assignment.  Rounding is to nearest, ties to even. -/

/-- Nearest integer to `q`, ties going to the even neighbour. -/
def roundHalfEven (q : ℚ) : ℤ :=
  let f := ⌊q⌋
  let r := q - f
  if r < 1 / 2 then f
  else if 1 / 2 < r then f + 1
  else if f % 2 = 0 then f else f + 1

/-- The binary exponent at which `q` is represented when the least exponent of
the format is `emin` (values below `2 ^ emin` are subnormal). -/
def expo (emin : ℤ) (q : ℚ) : ℤ := max (Int.log 2 |q|) emin

/-- The unit in the last place of `q` in a format with `p` significant bits and
least exponent `emin`. -/
def ulp (p : ℕ) (emin : ℤ) (q : ℚ) : ℚ := 2 ^ (expo emin q - (p - 1))

/-- Round `q` to the nearest value of the binary format with `p` significant
bits and least exponent `emin`, ties to even.  The exponent is not bounded
above: adding or subtracting `0.1` never takes a finite field to infinity. -/
def roundTo (p : ℕ) (emin : ℤ) (q : ℚ) : ℚ :=
  roundHalfEven (q / ulp p emin q) * ulp p emin q

/-- Rounding to `double` (53 significant bits, least exponent -1022). -/
def toDouble (q : ℚ) : ℚ := roundTo 53 (-1022) q

/-- Rounding to `float` (24 significant bits, least exponent -126). -/
def toFloat (q : ℚ) : ℚ := roundTo 24 (-126) q

/-- The `double` literal `0.1`. -/
def lit_0_1 : ℚ := toDouble (1 / 10)

/-- The statement `x += 0.1` on a `float` field (lines 207, 228, 249): the
new value of `x`. -/
def addTenth (x : ℚ) : ℚ := toFloat (toDouble (x + lit_0_1))

/-- The statement `x -= 0.1` on a `float` field (lines 214, 235, 256): the
new value of `x`. -/
def subTenth (x : ℚ) : ℚ := toFloat (toDouble (x - lit_0_1))

/-! ## Text output: `stream.precision(p); stream << std::fixed << val` -/

/-- Decimal digits of a natural number, most significant first (`0` for zero). -/
def natChars (n : ℕ) : List Char :=
  if n = 0 then ['0'] else ((Nat.digits 10 n).reverse).map Nat.digitChar

/-- The `p` digits after the decimal point of the scaled magnitude `m`,
most significant first. -/
def fracChars (p m : ℕ) : List Char :=
  ((List.range p).reverse).map (fun i => Nat.digitChar (m / 10 ^ i % 10))

/-- Fixed notation with `p` digits after the decimal point: what
`stream.precision(p); stream << std::fixed << val` and (for `p = 6`)
the `%f` conversion produce from the exact value of `val`, the last digit
rounded to nearest, ties to even. -/
def fixedChars (p : ℕ) (val : ℚ) : List Char :=
  let m := (roundHalfEven (|val| * 10 ^ p)).toNat
  (if val < 0 then ['-'] else []) ++ natChars (m / 10 ^ p) ++
    (if p = 0 then [] else '.' :: fracChars p m)

/-- The text written by `set_value` (lines 193-198): precision 1, fixed. -/
def set_value_text (val : ℚ) : String := String.mk (fixedChars 1 val)

/-- The text a `CULog("%f", val)` call prints. -/
def culog_f (val : ℚ) : String := String.mk (fixedChars 6 val)

/-! ## Engine calls -/

/-- Asset types for which `onStartup` attaches a loader. -/
inductive AssetKind where
  | Texture | Font | SceneNode | WidgetValue
  deriving DecidableEq, Repr

/-- Input devices (`CU_TOUCH_SCREEN` selects `Touchscreen`, else `Mouse`). -/
inductive Device where
  | Touchscreen | Mouse
  deriving DecidableEq, Repr

/-- The eight buttons `buildScene` registers a listener on. -/
inductive Button where
  | transient | continuous
  | intensity_increase | intensity_decrease
  | sharpness_increase | sharpness_decrease
  | duration_increase | duration_decrease
  deriving DecidableEq, Repr

/-- Calls the application makes into the engine, in the order of issue. -/
inductive EngineCall where
  | getDisplaySize
  | scene2Alloc
  | spriteBatchAlloc
  | setClearColor (r g b a : ℕ)
  | assetManagerAlloc
  | attach (k : AssetKind)
  | loadDirectory (path : String)
  | inputActivate (d : Device)
  | inputDeactivate (d : Device)
  | assetsGet (key : String)
  | setContentSize
  | addChild
  | addListener (b : Button)
  | activate (b : Button)
  | applicationOnStartup
  | applicationOnShutdown
  | displayGetSafeBounds
  | getSafeBounds
  | getDisplayBounds
  | culog (text : String)
  | hapticsStart
  | hapticsStop
  | playTransient (intensity sharpness : ℚ)
  | playContinuous (intensity sharpness duration : ℚ)
  | render
  deriving DecidableEq

end HelloApp

/-- The application object: the three `float` parameters (each a finite value,
given by the rational it denotes; infinities and NaN are outside the
embedding), the texts of the three value labels, and the trace of engine calls
issued so far. -/
structure HelloApp where
  _intensity : ℚ
  _sharpness : ℚ
  _duration : ℚ
  intensity_value : String
  sharpness_value : String
  duration_value : String
  calls : List HelloApp.EngineCall
  deriving DecidableEq

namespace HelloApp

/-- The three adjustable parameters. -/
inductive Param where
  | intensity | sharpness | duration
  deriving DecidableEq, Repr

/-- The stored value of a parameter. -/
def value : Param → HelloApp → ℚ
  | .intensity, s => s._intensity
  | .sharpness, s => s._sharpness
  | .duration, s => s._duration

/-- The text of a parameter's value label. -/
def label : Param → HelloApp → String
  | .intensity, s => s.intensity_value
  | .sharpness, s => s.sharpness_value
  | .duration, s => s.duration_value

/-- Lines 193-198: `set_value(label, val)` writes `val`, precision 1 and fixed,
into the value label of parameter `p`. -/
def set_value (p : Param) (val : ℚ) (s : HelloApp) : HelloApp :=
  match p with
  | .intensity => { s with intensity_value := set_value_text val }
  | .sharpness => { s with sharpness_value := set_value_text val }
  | .duration => { s with duration_value := set_value_text val }

/-- Issue one engine call. -/
def call (s : HelloApp) (c : EngineCall) : HelloApp :=
  { s with calls := s.calls ++ [c] }

/-! ## The listeners of `buildScene` (lines 179-260) -/

/-- Lines 180-183. -/
def transient_listener (_name : String) (down : Bool) (s : HelloApp) : HelloApp :=
  if down then s
  else s.call (.playTransient s._intensity s._sharpness)

/-- Lines 187-190. -/
def continuous_listener (_name : String) (down : Bool) (s : HelloApp) : HelloApp :=
  if down then s
  else s.call (.playContinuous s._intensity s._sharpness s._duration)

/-- Lines 205-211. -/
def intensity_increase_listener (_name : String) (down : Bool) (s : HelloApp) : HelloApp :=
  if down then s
  else
    let s := { s with _intensity := addTenth s._intensity }
    let s := { s with _intensity := max 0 (min s._intensity 1) }
    let s := set_value .intensity s._intensity s
    s.call (.culog (culog_f s._intensity))

/-- Lines 212-218. -/
def intensity_decrease_listener (_name : String) (down : Bool) (s : HelloApp) : HelloApp :=
  if down then s
  else
    let s := { s with _intensity := subTenth s._intensity }
    let s := { s with _intensity := max 0 (min s._intensity 1) }
    let s := set_value .intensity s._intensity s
    s.call (.culog (culog_f s._intensity))

/-- Lines 226-232. -/
def sharpness_increase_listener (_name : String) (down : Bool) (s : HelloApp) : HelloApp :=
  if down then s
  else
    let s := { s with _sharpness := addTenth s._sharpness }
    let s := { s with _sharpness := max 0 (min s._sharpness 1) }
    let s := set_value .sharpness s._sharpness s
    s.call (.culog (culog_f s._sharpness))

/-- Lines 233-239. -/
def sharpness_decrease_listener (_name : String) (down : Bool) (s : HelloApp) : HelloApp :=
  if down then s
  else
    let s := { s with _sharpness := subTenth s._sharpness }
    let s := { s with _sharpness := max 0 (min s._sharpness 1) }
    let s := set_value .sharpness s._sharpness s
    s.call (.culog (culog_f s._sharpness))

/-- Lines 247-253. -/
def duration_increase_listener (_name : String) (down : Bool) (s : HelloApp) : HelloApp :=
  if down then s
  else
    let s := { s with _duration := addTenth s._duration }
    let s := { s with _duration := max 0 s._duration }
    let s := set_value .duration s._duration s
    s.call (.culog (culog_f s._duration))

/-- Lines 254-260. -/
def duration_decrease_listener (_name : String) (down : Bool) (s : HelloApp) : HelloApp :=
  if down then s
  else
    let s := { s with _duration := subTenth s._duration }
    let s := { s with _duration := max 0 s._duration }
    let s := set_value .duration s._duration s
    s.call (.culog (culog_f s._duration))

/-- The scene-graph key under which `buildScene` looks a button up. -/
def Button.key : Button → String
  | .transient => "main_play-transient"
  | .continuous => "main_play-continuous"
  | .intensity_increase => "main_intensity_increase"
  | .intensity_decrease => "main_intensity_decrease"
  | .sharpness_increase => "main_sharpness_increase"
  | .sharpness_decrease => "main_sharpness_decrease"
  | .duration_increase => "main_duration_increase"
  | .duration_decrease => "main_duration_decrease"

/-- The listener `buildScene` attaches to each button. -/
def listener : Button → String → Bool → HelloApp → HelloApp
  | .transient => transient_listener
  | .continuous => continuous_listener
  | .intensity_increase => intensity_increase_listener
  | .intensity_decrease => intensity_decrease_listener
  | .sharpness_increase => sharpness_increase_listener
  | .sharpness_decrease => sharpness_decrease_listener
  | .duration_increase => duration_increase_listener
  | .duration_decrease => duration_decrease_listener

/-- A button event delivered by the engine: which button, and whether it is a
press (`down = true`) or a release (`down = false`). -/
structure Event where
  button : Button
  down : Bool
  deriving DecidableEq, Repr

/-- The engine invokes the button's listener with the button's name. -/
def fire (s : HelloApp) (e : Event) : HelloApp :=
  listener e.button e.button.key e.down s

/-- Deliver a sequence of button events in order. -/
def run (s : HelloApp) (evs : List Event) : HelloApp :=
  evs.foldl fire s

/-- A release of button `b`. -/
def release (b : Button) : Event := ⟨b, false⟩

/-- A press of button `b`. -/
def press (b : Button) : Event := ⟨b, true⟩

/-- Intensity and sharpness in `[0,1]`, duration non-negative. -/
def InRange (s : HelloApp) : Prop :=
  (0 ≤ s._intensity ∧ s._intensity ≤ 1) ∧ (0 ≤ s._sharpness ∧ s._sharpness ≤ 1) ∧
    0 ≤ s._duration

end HelloApp

namespace HelloApp

/-! ## Lifecycle hooks (lines 56-161) and `buildScene` (lines 170-265) -/

/-- A rectangle as `CULog` sees it: the renderings `origin.toString()` and
`size.toString()`. -/
structure Rect where
  origin : String
  size : String
  deriving DecidableEq, Repr

/-- What the platform supplies to the lifecycle hooks: whether
`CU_TOUCH_SCREEN` is defined, and the three rectangles the engine reports. -/
structure Env where
  touchScreen : Bool
  displaySafeBounds : Rect
  safeBounds : Rect
  displayBounds : Rect
  deriving DecidableEq, Repr

/-- The device chosen by the `#if defined (CU_TOUCH_SCREEN)` blocks. -/
def Env.device (env : Env) : Device :=
  if env.touchScreen then .Touchscreen else .Mouse

/-- The text of `CULog("<tag> Area %sx%s", origin, size)`. -/
def areaText (tag : String) (r : Rect) : String :=
  tag ++ " Area " ++ r.origin ++ "x" ++ r.size

/-- Lines 170-265: look the scene nodes up, register and activate the eight
listeners, and write the three value labels. -/
def buildScene (s : HelloApp) : HelloApp :=
  s
    |>.call .getDisplaySize
    |>.call (.assetsGet "main")
    |>.call .setContentSize
    |>.call .addChild
    |>.call (.assetsGet "main_play-transient")
    |>.call (.addListener .transient)
    |>.call (.activate .transient)
    |>.call (.assetsGet "main_play-continuous")
    |>.call (.addListener .continuous)
    |>.call (.activate .continuous)
    |>.call (.assetsGet "main_intensity_value")
    |> (fun s => set_value .intensity s._intensity s)
    |>.call (.assetsGet "main_intensity_increase")
    |>.call (.assetsGet "main_intensity_decrease")
    |>.call (.addListener .intensity_increase)
    |>.call (.addListener .intensity_decrease)
    |>.call (.activate .intensity_increase)
    |>.call (.activate .intensity_decrease)
    |>.call (.assetsGet "main_sharpness_value")
    |> (fun s => set_value .sharpness s._sharpness s)
    |>.call (.assetsGet "main_sharpness_increase")
    |>.call (.assetsGet "main_sharpness_decrease")
    |>.call (.addListener .sharpness_increase)
    |>.call (.addListener .sharpness_decrease)
    |>.call (.activate .sharpness_increase)
    |>.call (.activate .sharpness_decrease)
    |>.call (.assetsGet "main_duration_value")
    |> (fun s => set_value .duration s._duration s)
    |>.call (.assetsGet "main_duration_increase")
    |>.call (.assetsGet "main_duration_decrease")
    |>.call (.addListener .duration_increase)
    |>.call (.addListener .duration_decrease)
    |>.call (.activate .duration_increase)
    |>.call (.activate .duration_decrease)

/-- The calls `buildScene` issues, in order (lines 171-262). -/
def buildSceneTrace : List EngineCall :=
  [.getDisplaySize, .assetsGet "main", .setContentSize, .addChild,
   .assetsGet "main_play-transient", .addListener .transient, .activate .transient,
   .assetsGet "main_play-continuous", .addListener .continuous, .activate .continuous,
   .assetsGet "main_intensity_value",
   .assetsGet "main_intensity_increase", .assetsGet "main_intensity_decrease",
   .addListener .intensity_increase, .addListener .intensity_decrease,
   .activate .intensity_increase, .activate .intensity_decrease,
   .assetsGet "main_sharpness_value",
   .assetsGet "main_sharpness_increase", .assetsGet "main_sharpness_decrease",
   .addListener .sharpness_increase, .addListener .sharpness_decrease,
   .activate .sharpness_increase, .activate .sharpness_decrease,
   .assetsGet "main_duration_value",
   .assetsGet "main_duration_increase", .assetsGet "main_duration_decrease",
   .addListener .duration_increase, .addListener .duration_decrease,
   .activate .duration_increase, .activate .duration_decrease]

/-- Lines 56-105. -/
def onStartup (env : Env) (s : HelloApp) : HelloApp :=
  s
    |>.call .getDisplaySize
    |>.call .scene2Alloc
    |>.call .spriteBatchAlloc
    |>.call (.setClearColor 229 229 229 255)
    |>.call .assetManagerAlloc
    |>.call (.attach .Texture)
    |>.call (.attach .Font)
    |>.call (.attach .SceneNode)
    |>.call (.attach .WidgetValue)
    |>.call (.loadDirectory "json/assets.json")
    |>.call (.inputActivate env.device)
    |> buildScene
    |>.call .applicationOnStartup
    |>.call .displayGetSafeBounds
    |>.call (.culog (areaText "Safe" env.displaySafeBounds))
    |>.call .getSafeBounds
    |>.call (.culog (areaText "Safe" env.safeBounds))
    |>.call .getDisplayBounds
    |>.call (.culog (areaText "Full" env.displayBounds))
    |>.call .hapticsStart

/-- Lines 118-134 (the four smart pointers set to null hold no state of this
embedding). -/
def onShutdown (env : Env) (s : HelloApp) : HelloApp :=
  let s := s.call (.inputDeactivate env.device)
  let s := s.call .applicationOnShutdown
  s.call .hapticsStop

/-- Line 147. -/
def update (_timestep : ℚ) (s : HelloApp) : HelloApp := s

/-- Lines 158-161. -/
def draw (s : HelloApp) : HelloApp := s.call .render

/-- The engine calls an operation `f` issues when started in state `s`. -/
def callsMade (f : HelloApp → HelloApp) (s : HelloApp) : List EngineCall :=
  (f s).calls.drop s.calls.length

/-- The calls that follow the first occurrence of `c` in a trace. -/
def callsAfter (c : EngineCall) (l : List EngineCall) : List EngineCall :=
  (l.dropWhile (fun x => decide (x ≠ c))).drop 1

/-! ## Vocabulary of the statements -/

/-- The parameter an increase/decrease button adjusts (none for the two play
buttons). -/
def Button.param : Button → Option Param
  | .transient => none
  | .continuous => none
  | .intensity_increase => some .intensity
  | .intensity_decrease => some .intensity
  | .sharpness_increase => some .sharpness
  | .sharpness_decrease => some .sharpness
  | .duration_increase => some .duration
  | .duration_decrease => some .duration

/-- Whether an event is a release of one of the two buttons of parameter `p`. -/
def ownRelease (p : Param) (e : Event) : Bool :=
  !e.down && decide (e.button.param = some p)

/-- Whether a call goes to the haptics singleton's play methods. -/
def EngineCall.isHaptic : EngineCall → Bool
  | .playTransient _ _ => true
  | .playContinuous _ _ _ => true
  | _ => false

/-- A haptic play call whose arguments are in range (other calls: no
condition). -/
def HapticOk : EngineCall → Prop
  | .playTransient i sh => (0 ≤ i ∧ i ≤ 1) ∧ (0 ≤ sh ∧ sh ≤ 1)
  | .playContinuous i sh d => (0 ≤ i ∧ i ≤ 1) ∧ (0 ≤ sh ∧ sh ≤ 1) ∧ 0 ≤ d
  | _ => True

/-- Every value label shows its parameter's stored value as `set_value`
writes it. -/
def LabelsTrack (s : HelloApp) : Prop :=
  ∀ p : Param, label p s = set_value_text (value p s)

/-- A sample in-range state: all three parameters at one half, labels as
`buildScene` leaves them, no engine call issued yet. -/
def sample : HelloApp := ⟨1 / 2, 1 / 2, 1 / 2, "0.5", "0.5", "0.5", []⟩

/-- A sample state at the upper end of the intensity range and the lower end
of the duration range. -/
def sampleTop : HelloApp := ⟨1, 1 / 2, 0, "1.0", "0.5", "0.0", []⟩

/-- A sample event sequence touching every kind of button. -/
def sampleEvents : List Event :=
  [release .intensity_increase, press .transient, release .transient,
   release .duration_decrease, release .sharpness_decrease, release .continuous,
   release .sharpness_increase, release .intensity_decrease, release .duration_increase]

/-- The natural number a run of decimal digit characters denotes. -/
def digitsValue (cs : List Char) : ℕ :=
  Nat.ofDigits 10 ((cs.map (fun c => c.toNat - 48)).reverse)

/-- The text is the value `v` in fixed notation with exactly one digit after
the decimal point: a minus sign exactly when `v < 0`, then a non-empty run of
decimal digits without a superfluous leading zero, a point and one digit, which
together denote the multiple of `1/10` nearest to `|v|` (of two equally near
ones, the one with the even last digit). -/
def ShowsOneDecimal (text : String) (v : ℚ) : Prop :=
  ∃ (ip : List Char) (d : Char),
    text.data = (if v < 0 then ['-'] else []) ++ ip ++ ['.', d] ∧
    ip ≠ [] ∧ (∀ c ∈ ip, c.isDigit = true) ∧ d.isDigit = true ∧
    (ip.head? = some '0' → ip = ['0']) ∧
    abs (((digitsValue ip : ℚ) + (digitsValue [d] : ℚ) / 10) - abs v) ≤ 1 / 20 ∧
    (abs (((digitsValue ip : ℚ) + (digitsValue [d] : ℚ) / 10) - abs v) = 1 / 20 →
      Even (digitsValue [d]))

/-- A sample in-range state whose duration is `2 ^ 21 = 2097152`. -/
def sampleSat : HelloApp := ⟨1 / 2, 1 / 2, 2 ^ 21, "0.5", "0.5", "2097152.0", []⟩

end HelloApp

/-! ## Rounding -/

namespace HelloApp

theorem roundHalfEven_cases (x : ℚ) :
    (roundHalfEven x = ⌊x⌋ ∧ x - ⌊x⌋ ≤ 1 / 2) ∨
    (roundHalfEven x = ⌊x⌋ + 1 ∧ 1 / 2 ≤ x - ⌊x⌋) := by
  unfold roundHalfEven
  simp only
  split_ifs with h1 h2 h3
  · exact Or.inl ⟨rfl, h1.le⟩
  · exact Or.inr ⟨rfl, h2.le⟩
  · exact Or.inl ⟨rfl, not_lt.1 h2⟩
  · exact Or.inr ⟨rfl, not_lt.1 h1⟩

theorem roundHalfEven_err (x : ℚ) : |(roundHalfEven x : ℚ) - x| ≤ 1 / 2 := by
  have h0 : (⌊x⌋ : ℚ) ≤ x := Int.floor_le x
  have h1 : x < ⌊x⌋ + 1 := Int.lt_floor_add_one x
  rcases roundHalfEven_cases x with ⟨h, hr⟩ | ⟨h, hr⟩
  · rw [h, abs_le]; constructor <;> linarith
  · rw [h, abs_le]; push_cast; constructor <;> linarith

theorem roundHalfEven_le {x : ℚ} {n : ℤ} (h : x ≤ n) : roundHalfEven x ≤ n := by
  have h0 : (⌊x⌋ : ℚ) ≤ x := Int.floor_le x
  rcases roundHalfEven_cases x with ⟨hr, _⟩ | ⟨hr, hh⟩
  · rw [hr]
    have : (⌊x⌋ : ℚ) ≤ n := h0.trans h
    exact_mod_cast this
  · rw [hr]
    have : (⌊x⌋ : ℚ) < n := by linarith
    have : ⌊x⌋ < n := by exact_mod_cast this
    omega

theorem le_roundHalfEven {x : ℚ} {n : ℤ} (h : (n : ℚ) ≤ x) : n ≤ roundHalfEven x := by
  have h0 : n ≤ ⌊x⌋ := Int.le_floor.2 h
  rcases roundHalfEven_cases x with ⟨hr, _⟩ | ⟨hr, _⟩ <;> rw [hr] <;> omega

theorem roundHalfEven_eq {x : ℚ} {n : ℤ} (h : |x - n| < 1 / 2) : roundHalfEven x = n := by
  have h1 := roundHalfEven_err x
  rw [abs_lt] at h
  rw [abs_le] at h1
  have h2 : ((roundHalfEven x : ℤ) : ℚ) < n + 1 := by linarith
  have h3 : (n : ℚ) - 1 < (roundHalfEven x : ℤ) := by linarith
  have h4 : roundHalfEven x < n + 1 := by exact_mod_cast h2
  have h5 : n - 1 < roundHalfEven x := by exact_mod_cast h3
  omega

theorem ulp_pos (p : ℕ) (l : ℤ) (q : ℚ) : 0 < ulp p l q := by
  unfold ulp; positivity

theorem roundTo_err (p : ℕ) (l : ℤ) (q : ℚ) :
    |roundTo p l q - q| ≤ ulp p l q / 2 := by
  have hu := ulp_pos p l q
  have h := roundHalfEven_err (q / ulp p l q)
  have e : roundTo p l q - q = ((roundHalfEven (q / ulp p l q) : ℚ) - q / ulp p l q) * ulp p l q := by
    unfold roundTo; field_simp
  rw [e, abs_mul, abs_of_pos hu]
  calc _ ≤ 1 / 2 * ulp p l q := mul_le_mul_of_nonneg_right h hu.le
    _ = _ := by ring

/-- The exponent of a value below `2 ^ k`. -/
theorem expo_le {l k : ℤ} {q : ℚ} (hk : 1 ≤ k) (he : l < k) (hq : |q| < 2 ^ k) :
    expo l q ≤ k - 1 := by
  unfold expo
  apply max_le _ (by omega)
  rcases eq_or_ne q 0 with rfl | h0
  · simp; omega
  · have hpos : 0 < |q| := abs_pos.2 h0
    have : Int.log 2 |q| < k := (Int.lt_zpow_iff_log_lt (by norm_num) hpos).1 (by exact_mod_cast hq)
    omega

theorem zpow_two_mono {a b : ℤ} (h : a ≤ b) : (2 : ℚ) ^ a ≤ 2 ^ b :=
  zpow_le_zpow_right₀ (by norm_num) h

theorem roundTo_err_of_lt {p : ℕ} {l k : ℤ} {q : ℚ} (hk : 1 ≤ k) (he : l < k)
    (hq : |q| < 2 ^ k) : |roundTo p l q - q| ≤ 2 ^ (k - 1 - p) := by
  refine (roundTo_err p l q).trans ?_
  have h1 : ulp p l q ≤ 2 ^ (k - 1 - (p - 1)) := by
    unfold ulp
    exact zpow_two_mono (by have := expo_le hk he hq; omega)
  have h2 : (2 : ℚ) ^ (k - 1 - ((p : ℤ) - 1)) = 2 * 2 ^ (k - 1 - (p : ℤ)) := by
    rw [show k - 1 - ((p : ℤ) - 1) = (k - 1 - p) + 1 by ring, zpow_add_one₀ (by norm_num)]
    ring
  rw [h2] at h1
  linarith

theorem roundHalfEven_zero : roundHalfEven 0 = 0 := by
  simp [roundHalfEven]

theorem roundTo_zero (p : ℕ) (l : ℤ) : roundTo p l 0 = 0 := by
  simp [roundTo, roundHalfEven_zero]

/-- Relative form of the rounding error. -/
theorem roundTo_err_rel (p : ℕ) (l : ℤ) (q : ℚ) :
    |roundTo p l q - q| ≤ (|q| + 2 ^ l) / 2 ^ p := by
  rcases eq_or_ne q 0 with rfl | h0
  · rw [roundTo_zero]; simp; positivity
  refine (roundTo_err p l q).trans ?_
  have hp : (0 : ℚ) < 2 ^ p := by positivity
  have key : ulp p l q ≤ (|q| + 2 ^ l) * 2 / 2 ^ p := by
    have hu : ulp p l q = 2 ^ (expo l q) * 2 / 2 ^ p := by
      unfold ulp
      rw [show expo l q - ((p : ℤ) - 1) = expo l q + 1 - p by ring,
        zpow_sub₀ (by norm_num), zpow_add_one₀ (by norm_num), zpow_natCast]
    rw [hu]
    have hb : (2 : ℚ) ^ (expo l q) ≤ |q| + 2 ^ l := by
      unfold expo
      rcases le_total (Int.log 2 |q|) l with h | h
      · rw [max_eq_right h]; linarith [abs_nonneg q]
      · rw [max_eq_left h]
        have := Int.zpow_log_le_self (b := 2) (r := |q|) (by norm_num) (abs_pos.2 h0)
        have h2 : (0 : ℚ) < 2 ^ l := by positivity
        push_cast at this
        linarith
    gcongr
  calc ulp p l q / 2 ≤ (|q| + 2 ^ l) * 2 / 2 ^ p / 2 := by linarith
    _ = _ := by ring

theorem roundTo_nonneg {p : ℕ} {l : ℤ} {q : ℚ} (h : 0 ≤ q) : 0 ≤ roundTo p l q := by
  have hu := ulp_pos p l q
  unfold roundTo
  have : (0 : ℤ) ≤ roundHalfEven (q / ulp p l q) :=
    le_roundHalfEven (by simpa using div_nonneg h hu.le)
  have : (0 : ℚ) ≤ (roundHalfEven (q / ulp p l q) : ℤ) := by exact_mod_cast this
  positivity

theorem roundTo_nonpos {p : ℕ} {l : ℤ} {q : ℚ} (h : q ≤ 0) : roundTo p l q ≤ 0 := by
  have hu := ulp_pos p l q
  unfold roundTo
  have : roundHalfEven (q / ulp p l q) ≤ (0 : ℤ) :=
    roundHalfEven_le (by simpa using div_nonpos_of_nonpos_of_nonneg h hu.le)
  have : ((roundHalfEven (q / ulp p l q) : ℤ) : ℚ) ≤ 0 := by exact_mod_cast this
  exact mul_nonpos_of_nonpos_of_nonneg this hu.le

/-- Rounding does not cross a power of two from above. -/
theorem le_roundTo_of_pow_le {p : ℕ} {l k : ℤ} {q : ℚ} (hp : 1 ≤ p) (hk : l ≤ k)
    (h : (2 : ℚ) ^ k ≤ q) : (2 : ℚ) ^ k ≤ roundTo p l q := by
  have hq : 0 < q := lt_of_lt_of_le (by positivity) h
  have habs : |q| = q := abs_of_pos hq
  have hlog : k ≤ Int.log 2 |q| := by
    rw [habs]; exact (Int.zpow_le_iff_le_log (by norm_num) hq).1 (by exact_mod_cast h)
  have he : expo l q = Int.log 2 q := by
    unfold expo; rw [habs] at hlog ⊢; exact max_eq_left (by omega)
  have hle : (2 : ℚ) ^ (Int.log 2 q) ≤ q := by
    have := Int.zpow_log_le_self (b := 2) (r := q) (by norm_num) hq
    exact_mod_cast this
  have hu : ulp p l q = 2 ^ (Int.log 2 q - (p - 1)) := by unfold ulp; rw [he]
  have hupos := ulp_pos p l q
  have hint : (((2 : ℤ) ^ (p - 1) : ℤ) : ℚ) * ulp p l q = 2 ^ (Int.log 2 q) := by
    rw [hu]; push_cast
    rw [← zpow_natCast, ← zpow_add₀ (by norm_num)]
    congr 1
    have : ((p - 1 : ℕ) : ℤ) = (p : ℤ) - 1 := by omega
    rw [this]; ring
  have h1 : (((2 : ℤ) ^ (p - 1) : ℤ) : ℚ) ≤ q / ulp p l q := by
    rw [le_div_iff₀ hupos, hint]; exact hle
  have h2 := le_roundHalfEven h1
  have h3 : (((2 : ℤ) ^ (p - 1) : ℤ) : ℚ) ≤ (roundHalfEven (q / ulp p l q) : ℤ) := by
    exact_mod_cast h2
  unfold roundTo
  rw [habs] at hlog
  calc (2 : ℚ) ^ k ≤ 2 ^ (Int.log 2 q) := zpow_two_mono hlog
    _ = (((2 : ℤ) ^ (p - 1) : ℤ) : ℚ) * ulp p l q := hint.symm
    _ ≤ _ := mul_le_mul_of_nonneg_right h3 hupos.le

/-- The exponent of a value in a known binade. -/
theorem expo_eq {l e : ℤ} {q : ℚ} (he : l ≤ e) (h1 : (2 : ℚ) ^ e ≤ |q|)
    (h2 : |q| < 2 ^ (e + 1)) : expo l q = e := by
  have hpos : 0 < |q| := lt_of_lt_of_le (by positivity) h1
  have ha : e ≤ Int.log 2 |q| :=
    (Int.zpow_le_iff_le_log (by norm_num) hpos).1 (by exact_mod_cast h1)
  have hb : Int.log 2 |q| < e + 1 :=
    (Int.lt_zpow_iff_log_lt (by norm_num) hpos).1 (by exact_mod_cast h2)
  unfold expo
  rw [max_eq_left (by omega)]; omega

/-- Evaluation of a rounding: in the binade of exponent `e`, a value closer
than half a unit in the last place to `n` units rounds to `n` units. -/
theorem roundTo_eq {p : ℕ} {l e : ℤ} {q : ℚ} (n : ℤ) (he : l ≤ e)
    (h1 : (2 : ℚ) ^ e ≤ |q|) (h2 : |q| < 2 ^ (e + 1))
    (h : |q / 2 ^ (e - (p - 1)) - n| < 1 / 2) :
    roundTo p l q = n * 2 ^ (e - (p - 1)) := by
  unfold roundTo ulp
  rw [expo_eq he h1 h2, roundHalfEven_eq h]

/-- Rounding does not cross a representable value from below. -/
theorem roundTo_le_of_le {p : ℕ} {l e : ℤ} {q : ℚ} (m : ℤ) (he : l ≤ e)
    (hm : 0 ≤ m) (hlt : (m : ℚ) * 2 ^ (e - (p - 1)) < 2 ^ (e + 1))
    (h : q ≤ m * 2 ^ (e - (p - 1))) :
    roundTo p l q ≤ m * 2 ^ (e - (p - 1)) := by
  rcases le_or_lt q 0 with hq | hq
  · exact (roundTo_nonpos hq).trans (by positivity)
  have habs : |q| = q := abs_of_pos hq
  have hexp : expo l q ≤ e := by
    unfold expo
    apply max_le _ he
    have : Int.log 2 |q| < e + 1 :=
      (Int.lt_zpow_iff_log_lt (by norm_num) (by rw [habs]; exact hq)).1
        (by rw [habs]; exact_mod_cast lt_of_le_of_lt h hlt)
    omega
  have hupos := ulp_pos p l q
  obtain ⟨d, hd⟩ : ∃ d : ℕ, e = expo l q + d := ⟨(e - expo l q).toNat, by omega⟩
  have hrep : (m : ℚ) * 2 ^ (e - (p - 1)) = ((m * 2 ^ d : ℤ) : ℚ) * ulp p l q := by
    unfold ulp
    push_cast
    rw [hd, show expo l q + (d : ℤ) - ((p : ℤ) - 1) = (d : ℤ) + (expo l q - ((p : ℤ) - 1)) by ring,
      zpow_add₀ (by norm_num), zpow_natCast]
    ring
  have h1 : q / ulp p l q ≤ ((m * 2 ^ d : ℤ) : ℚ) := by
    rw [div_le_iff₀ hupos, ← hrep]; exact h
  have h2 : ((roundHalfEven (q / ulp p l q) : ℤ) : ℚ) ≤ ((m * 2 ^ d : ℤ) : ℚ) := by
    exact_mod_cast roundHalfEven_le h1
  rw [hrep]
  unfold roundTo
  exact mul_le_mul_of_nonneg_right h2 hupos.le

/-! ## The steps `x += 0.1` and `x -= 0.1` -/

theorem lit_0_1_eq : lit_0_1 = 3602879701896397 / 36028797018963968 := by
  unfold lit_0_1 toDouble
  rw [roundTo_eq (e := -4) 7205759403792794 (by norm_num) (by norm_num [abs_of_pos])
    (by norm_num [abs_of_pos]) (by norm_num [abs_of_pos])]
  norm_num

/-- Error of the two roundings (to double, then to single precision). -/
theorem toFloat_toDouble_err (q : ℚ) :
    |toFloat (toDouble q) - q| ≤ (|q| + 1 / 100) / 2 ^ 24 + (|q| + 1 / 100) / 2 ^ 52 := by
  have t1 : (2 : ℚ) ^ (-1022 : ℤ) ≤ 1 / 128 :=
    (zpow_two_mono (show (-1022 : ℤ) ≤ -7 by norm_num)).trans (by norm_num)
  have t2 : (2 : ℚ) ^ (-126 : ℤ) ≤ 1 / 128 :=
    (zpow_two_mono (show (-126 : ℤ) ≤ -7 by norm_num)).trans (by norm_num)
  have e1 : |toDouble q - q| ≤ (|q| + 2 ^ (-1022 : ℤ)) / 2 ^ 53 := roundTo_err_rel 53 (-1022) q
  have e2 : |toFloat (toDouble q) - toDouble q| ≤ (|toDouble q| + 2 ^ (-126 : ℤ)) / 2 ^ 24 :=
    roundTo_err_rel 24 (-126) (toDouble q)
  have e3 : |toDouble q| ≤ |q| + |toDouble q - q| := by
    have := abs_add (toDouble q - q) q
    rw [sub_add_cancel] at this; linarith
  have e4 : |toFloat (toDouble q) - q| ≤
      |toFloat (toDouble q) - toDouble q| + |toDouble q - q| := by
    have := abs_add (toFloat (toDouble q) - toDouble q) (toDouble q - q)
    rw [sub_add_sub_cancel] at this; exact this
  have hq := abs_nonneg q
  have e1' : |toDouble q - q| ≤ (|q| + 1 / 128) / 2 ^ 53 := by
    refine e1.trans ?_; gcongr
  have e2' : |toFloat (toDouble q) - toDouble q| ≤
      (|q| + (|q| + 1 / 128) / 2 ^ 53 + 1 / 128) / 2 ^ 24 := by
    refine e2.trans ?_; gcongr; linarith
  norm_num at e1' e2' ⊢
  linarith

theorem lit_0_1_bounds : 1 / 10 < lit_0_1 ∧ lit_0_1 - 1 / 10 ≤ 1 / 2 ^ 57 := by
  rw [lit_0_1_eq]; norm_num

theorem addTenth_err (x : ℚ) : |addTenth x - (x + 1 / 10)| ≤ (|x| + 1) / 2 ^ 23 := by
  obtain ⟨l1, l2⟩ := lit_0_1_bounds
  have h := toFloat_toDouble_err (x + lit_0_1)
  have ha : |x + lit_0_1| ≤ |x| + lit_0_1 := by
    have := abs_add x lit_0_1
    rwa [abs_of_pos (by linarith : 0 < lit_0_1)] at this
  have hx := abs_nonneg x
  have hb : |addTenth x - (x + 1 / 10)| ≤
      |toFloat (toDouble (x + lit_0_1)) - (x + lit_0_1)| + (lit_0_1 - 1 / 10) := by
    have := abs_add (toFloat (toDouble (x + lit_0_1)) - (x + lit_0_1)) (lit_0_1 - 1 / 10)
    rw [abs_of_pos (by linarith : 0 < lit_0_1 - 1 / 10)] at this
    unfold addTenth
    calc _ = |toFloat (toDouble (x + lit_0_1)) - (x + lit_0_1) + (lit_0_1 - 1 / 10)| := by
          congr 1; ring
      _ ≤ _ := this
  norm_num at h l2 ⊢
  linarith

theorem subTenth_err (x : ℚ) : |subTenth x - (x - 1 / 10)| ≤ (|x| + 1) / 2 ^ 23 := by
  obtain ⟨l1, l2⟩ := lit_0_1_bounds
  have h := toFloat_toDouble_err (x - lit_0_1)
  have ha : |x - lit_0_1| ≤ |x| + lit_0_1 := by
    have := abs_sub x lit_0_1
    rwa [abs_of_pos (by linarith : 0 < lit_0_1)] at this
  have hx := abs_nonneg x
  have hb : |subTenth x - (x - 1 / 10)| ≤
      |toFloat (toDouble (x - lit_0_1)) - (x - lit_0_1)| + (lit_0_1 - 1 / 10) := by
    have := abs_sub (toFloat (toDouble (x - lit_0_1)) - (x - lit_0_1)) (lit_0_1 - 1 / 10)
    rw [abs_of_pos (by linarith : 0 < lit_0_1 - 1 / 10)] at this
    unfold subTenth
    calc _ = |toFloat (toDouble (x - lit_0_1)) - (x - lit_0_1) - (lit_0_1 - 1 / 10)| := by
          congr 1; ring
      _ ≤ _ := this
  norm_num at h l2 ⊢
  linarith

theorem addTenth_half : addTenth (1 / 2) = 5033165 / 8388608 := by
  unfold addTenth toFloat toDouble
  rw [lit_0_1_eq]
  rw [roundTo_eq (q := 1 / 2 + 3602879701896397 / 36028797018963968) (e := -1)
    5404319552844595 (by norm_num) (by norm_num [abs_of_pos])
    (by norm_num [abs_of_pos]) (by norm_num [abs_of_pos])]
  rw [roundTo_eq (e := -1) 10066330 (by norm_num) (by norm_num [abs_of_pos])
    (by norm_num [abs_of_pos]) (by norm_num [abs_of_pos])]
  norm_num

/-- From `1` upwards the sum is at least `1`. -/
theorem one_le_addTenth {x : ℚ} (h : 1 < x + 1 / 10) : 1 ≤ addTenth x := by
  have l1 := lit_0_1_bounds.1
  have h1 : (2 : ℚ) ^ (0 : ℤ) ≤ toDouble (x + lit_0_1) :=
    le_roundTo_of_pow_le (by norm_num) (by norm_num) (by norm_num; linarith)
  have h2 : (2 : ℚ) ^ (0 : ℤ) ≤ addTenth x :=
    le_roundTo_of_pow_le (by norm_num) (by norm_num) h1
  simpa using h2

/-- Below `0.1` the difference is at most `0`. -/
theorem subTenth_nonpos {x : ℚ} (h : x < 1 / 10) : subTenth x ≤ 0 := by
  have l1 := lit_0_1_bounds.1
  exact roundTo_nonpos (roundTo_nonpos (by linarith))

theorem addTenth_nonneg {x : ℚ} (h : 0 ≤ x) : 0 ≤ addTenth x := by
  have l1 := lit_0_1_bounds.1
  exact roundTo_nonneg (roundTo_nonneg (by linarith))

/-- The sum saturates at `2 ^ 21`. -/
theorem addTenth_le_sat {x : ℚ} (h : x ≤ 2 ^ 21) : addTenth x ≤ 2 ^ 21 := by
  have hl : lit_0_1 = 3602879701896397 / 36028797018963968 := lit_0_1_eq
  have hy : toDouble (x + lit_0_1) ≤ (4503599842118861 : ℤ) * 2 ^ ((21 : ℤ) - ((53 : ℕ) - 1)) := by
    apply roundTo_le_of_le 4503599842118861 (by norm_num) (by norm_num) (by norm_num)
    rw [hl]; norm_num; norm_num at h; linarith
  rcases le_or_lt (toDouble (x + lit_0_1)) (2 ^ 21) with hc | hc
  · have := roundTo_le_of_le (p := 24) (l := -126) (e := 21) (q := toDouble (x + lit_0_1))
      8388608 (by norm_num) (by norm_num) (by norm_num) (by norm_num; norm_num at hc; exact hc)
    unfold addTenth toFloat
    norm_num at this ⊢
    exact this
  · have hpos : 0 < toDouble (x + lit_0_1) := lt_trans (by positivity) hc
    have := roundTo_eq (p := 24) (l := -126) (e := 21) (q := toDouble (x + lit_0_1))
      8388608 (by norm_num) (by rw [abs_of_pos hpos]; norm_num; norm_num at hc; exact hc.le)
      (by rw [abs_of_pos hpos]; norm_num; norm_num at hy; linarith)
      (by
        norm_num at hy hc ⊢
        rw [abs_lt]; constructor <;> linarith)
    unfold addTenth toFloat
    rw [this]; norm_num

theorem addTenth_sat : addTenth (2 ^ 21) = 2 ^ 21 := by
  apply le_antisymm (addTenth_le_sat le_rfl)
  have l1 := lit_0_1_bounds.1
  have h1 : (2 : ℚ) ^ (21 : ℤ) ≤ toDouble (2 ^ 21 + lit_0_1) :=
    le_roundTo_of_pow_le (by norm_num) (by norm_num) (by norm_num; linarith)
  have h2 : (2 : ℚ) ^ (21 : ℤ) ≤ addTenth (2 ^ 21) :=
    le_roundTo_of_pow_le (by norm_num) (by norm_num) h1
  exact_mod_cast h2

/-- Below the saturation point the sum makes progress. -/
theorem addTenth_progress {x : ℚ} (h : 0 ≤ x) : min (x + 3 / 100) (2 ^ 21) ≤ addTenth x := by
  obtain ⟨l1, l2⟩ := lit_0_1_bounds
  rcases le_or_lt ((2 : ℚ) ^ (21 : ℤ)) (toDouble (x + lit_0_1)) with hc | hc
  · have h2 : (2 : ℚ) ^ (21 : ℤ) ≤ addTenth x :=
      le_roundTo_of_pow_le (by norm_num) (by norm_num) hc
    exact (min_le_right _ _).trans (by exact_mod_cast h2)
  · have hy0 : 0 ≤ toDouble (x + lit_0_1) := roundTo_nonneg (by linarith)
    have e2 : |addTenth x - toDouble (x + lit_0_1)| ≤ 2 ^ ((21 : ℤ) - 1 - (24 : ℕ)) :=
      roundTo_err_of_lt (by norm_num) (by norm_num) (by rw [abs_of_nonneg hy0]; exact hc)
    have hx : x + lit_0_1 < 2 ^ (22 : ℤ) := by
      by_contra hcon
      have := le_roundTo_of_pow_le (p := 53) (l := -1022) (k := 22) (by norm_num)
        (by norm_num) (not_lt.1 hcon)
      have h3 : (2 : ℚ) ^ (22 : ℤ) ≤ toDouble (x + lit_0_1) := this
      norm_num at h3 hc; linarith
    have e1 : |toDouble (x + lit_0_1) - (x + lit_0_1)| ≤ 2 ^ ((22 : ℤ) - 1 - (53 : ℕ)) :=
      roundTo_err_of_lt (by norm_num) (by norm_num)
        (by rw [abs_of_pos (by linarith)]; exact hx)
    rw [abs_le] at e1 e2
    norm_num at e1 e2
    refine (min_le_left _ _).trans ?_
    linarith [e1.1, e2.1]

end HelloApp

/-! ## Fixed notation -/

namespace HelloApp

theorem digitChar_isDigit {d : ℕ} (h : d < 10) : (Nat.digitChar d).isDigit = true := by
  interval_cases d <;> rfl

theorem digitChar_toNat {d : ℕ} (h : d < 10) : (Nat.digitChar d).toNat - 48 = d := by
  interval_cases d <;> rfl

theorem natChars_isDigit (n : ℕ) : ∀ c ∈ natChars n, c.isDigit = true := by
  intro c hc
  unfold natChars at hc
  split_ifs at hc with h0
  · rw [List.mem_singleton] at hc; subst hc; rfl
  · obtain ⟨d, hd, rfl⟩ := List.mem_map.1 hc
    exact digitChar_isDigit (Nat.digits_lt_base (by norm_num) (List.mem_reverse.1 hd))

theorem natChars_ne_nil (n : ℕ) : natChars n ≠ [] := by
  unfold natChars
  split_ifs with h0
  · simp
  · simp [Nat.digits_ne_nil_iff_ne_zero, h0]

theorem digitsValue_natChars (n : ℕ) : digitsValue (natChars n) = n := by
  unfold natChars digitsValue
  split_ifs with h0
  · subst h0; rfl
  · rw [List.map_map, ← List.map_reverse, List.reverse_reverse]
    have : (Nat.digits 10 n).map ((fun c : Char => c.toNat - 48) ∘ Nat.digitChar) =
        Nat.digits 10 n := by
      conv_rhs => rw [← List.map_id (Nat.digits 10 n)]
      apply List.map_congr_left
      intro d hd
      exact digitChar_toNat (Nat.digits_lt_base (by norm_num) hd)
    rw [this, Nat.ofDigits_digits]

theorem digitsValue_single {d : ℕ} (h : d < 10) : digitsValue [Nat.digitChar d] = d := by
  interval_cases d <;> rfl

theorem natChars_head (n : ℕ) : (natChars n).head? = some '0' → natChars n = ['0'] := by
  unfold natChars
  split_ifs with h0
  · intro _; rfl
  · intro h
    exfalso
    have hne : Nat.digits 10 n ≠ [] := Nat.digits_ne_nil_iff_ne_zero.2 h0
    have hlast := Nat.getLast_digit_ne_zero 10 h0
    have hlt : (Nat.digits 10 n).getLast hne < 10 :=
      Nat.digits_lt_base (by norm_num) (List.getLast_mem hne)
    rw [List.head?_map, List.head?_reverse, List.getLast?_eq_getLast _ hne] at h
    simp only [Option.map_some', Option.some.injEq] at h
    revert h hlast
    generalize (Nat.digits 10 n).getLast hne = d at hlt
    interval_cases d <;> simp <;> decide

theorem roundHalfEven_tie {x : ℚ} (h : |(roundHalfEven x : ℚ) - x| = 1 / 2) :
    Even (roundHalfEven x) := by
  have h0 : (⌊x⌋ : ℚ) ≤ x := Int.floor_le x
  have h1 : x < ⌊x⌋ + 1 := Int.lt_floor_add_one x
  revert h
  unfold roundHalfEven
  simp only
  split_ifs with c1 c2 c3
  · intro h
    rw [abs_of_nonpos (by linarith)] at h
    linarith
  · intro h
    push_cast at h
    rw [abs_of_nonneg (by linarith)] at h
    linarith
  · intro _; exact Int.even_iff.2 c3
  · intro _
    rw [Int.even_add_one, Int.even_iff]; exact c3

theorem set_value_text_shows (v : ℚ) : ShowsOneDecimal (set_value_text v) v := by
  have hnn : (0 : ℚ) ≤ |v| * 10 := by positivity
  have hr0 : 0 ≤ roundHalfEven (|v| * 10) := le_roundHalfEven (by simp)
  obtain ⟨m, hm⟩ := Int.eq_ofNat_of_zero_le hr0
  have herr := roundHalfEven_err (|v| * 10)
  have hsplit : ((m / 10 : ℕ) : ℚ) + ((m % 10 : ℕ) : ℚ) / 10 = (m : ℚ) / 10 := by
    have := Nat.div_add_mod m 10
    have h2 : ((10 * (m / 10) + m % 10 : ℕ) : ℚ) = m := by exact_mod_cast this
    push_cast at h2
    linarith
  refine ⟨natChars (m / 10), Nat.digitChar (m % 10), ?_, natChars_ne_nil _,
    natChars_isDigit _, digitChar_isDigit (Nat.mod_lt _ (by norm_num)), natChars_head _, ?_, ?_⟩
  · simp [set_value_text, fixedChars, fracChars, List.range_succ, hm]
  · rw [digitsValue_natChars, digitsValue_single (Nat.mod_lt _ (by norm_num)), hsplit]
    rw [hm] at herr
    have : (m : ℚ) / 10 - |v| = (((m : ℤ) : ℚ) - |v| * 10) / 10 := by push_cast; ring
    rw [this, abs_div, abs_of_pos (by norm_num : (0 : ℚ) < 10)]
    linarith
  · rw [digitsValue_natChars, digitsValue_single (Nat.mod_lt _ (by norm_num)), hsplit]
    intro h
    have : (m : ℚ) / 10 - |v| = (((m : ℤ) : ℚ) - |v| * 10) / 10 := by push_cast; ring
    rw [this, abs_div, abs_of_pos (by norm_num : (0 : ℚ) < 10)] at h
    have htie : |((roundHalfEven (|v| * 10) : ℤ) : ℚ) - |v| * 10| = 1 / 2 := by
      rw [hm]; linarith
    have hev := roundHalfEven_tie htie
    rw [hm] at hev
    have hev' : Even m := by exact_mod_cast hev
    rw [Nat.even_iff] at hev' ⊢
    omega

end HelloApp

/-! ## Basic facts about the listeners -/

namespace HelloApp

theorem run_cons (s : HelloApp) (e : Event) (evs : List Event) :
    run s (e :: evs) = run (fire s e) evs := rfl

/-- Every listener returns at once on `down = true`. -/
theorem listener_down (b : Button) (name : String) (s : HelloApp) :
    listener b name true s = s := by
  cases b <;> rfl

/-- The clamp of lines 208, 215, 229, 236 lands in `[0,1]`. -/
theorem clamp_mem (x : ℚ) : 0 ≤ max 0 (min x 1) ∧ max 0 (min x 1) ≤ 1 := by
  constructor
  · exact le_max_left _ _
  · exact max_le (by norm_num) (min_le_right _ _)

/-- One event keeps the parameters in range. -/
theorem inRange_fire {s : HelloApp} (h : InRange s) (e : Event) : InRange (fire s e) := by
  obtain ⟨b, down⟩ := e
  cases down
  · obtain ⟨hi, hs, hd⟩ := h
    cases b
    · exact ⟨hi, hs, hd⟩
    · exact ⟨hi, hs, hd⟩
    · exact ⟨clamp_mem _, hs, hd⟩
    · exact ⟨clamp_mem _, hs, hd⟩
    · exact ⟨hi, clamp_mem _, hd⟩
    · exact ⟨hi, clamp_mem _, hd⟩
    · exact ⟨hi, hs, le_max_left _ _⟩
    · exact ⟨hi, hs, le_max_left _ _⟩
  · have : HelloApp.fire s ⟨b, true⟩ = s := listener_down b _ s
    rw [this]; exact h

/-- Any event sequence keeps the parameters in range. -/
theorem inRange_run {s : HelloApp} (h : InRange s) (evs : List Event) :
    InRange (run s evs) := by
  induction evs generalizing s with
  | nil => exact h
  | cons e evs ih => exact ih (inRange_fire h e)

theorem sample_inRange : InRange sample := by
  simp only [InRange, sample]; norm_num

theorem sampleTop_inRange : InRange sampleTop := by
  simp only [InRange, sampleTop]; norm_num

/-! ## C1: bounds invariant -/

/-- C1. From a state with intensity and sharpness in `[0,1]` and duration `≥ 0`,
after every event of every finite sequence of press/release events on the
eight buttons (that is, after every prefix of the sequence) intensity and
sharpness are in `[0,1]` and duration is `≥ 0`. -/
theorem bounds_invariant (s : HelloApp) (evs : List Event) (h : InRange s) :
    ∀ k : ℕ, InRange (run s (evs.take k)) :=
  fun k => inRange_run h (evs.take k)

/-- C1 at the sample state and the sample event sequence. -/
theorem bounds_invariant_witness :
    InRange sample ∧ ∀ k : ℕ, InRange (run sample (sampleEvents.take k)) :=
  ⟨sample_inRange, bounds_invariant sample sampleEvents sample_inRange⟩

end HelloApp

/-! ## C2: what a release computes -/

namespace HelloApp

/-- The clamp to `[0,1]` does not increase distances. -/
theorem clamp_lip (a b : ℚ) :
    abs (max 0 (min a 1) - max 0 (min b 1)) ≤ abs (a - b) := by
  have h1 := le_abs_self (a - b)
  have h2 := neg_abs_le (a - b)
  rw [abs_le]
  constructor <;> simp only [max_def, min_def] <;> split_ifs <;> linarith

/-- The clamp to `[0,∞)` does not increase distances. -/
theorem max_zero_lip (a b : ℚ) : abs (max 0 a - max 0 b) ≤ abs (a - b) := by
  have h1 := le_abs_self (a - b)
  have h2 := neg_abs_le (a - b)
  rw [abs_le]
  constructor <;> simp only [max_def] <;> split_ifs <;> linarith

/-- C2, as stated, fails: from the stored value `0.5` a release of the
intensity increase button stores `5033165/8388608` (the single-precision
number next to `0.6`), not `max(0, min(0.5 + 0.1, 1)) = 3/5`. -/
theorem handler_result_fails :
    (fire sample (release .intensity_increase))._intensity = 5033165 / 8388608 ∧
    (fire sample (release .intensity_increase))._intensity ≠
      max 0 (min (sample._intensity + 1 / 10) 1) := by
  have h : (fire sample (release .intensity_increase))._intensity = 5033165 / 8388608 := by
    show max 0 (min (addTenth (1 / 2)) 1) = _
    rw [addTenth_half]; norm_num
  refine ⟨h, ?_⟩
  rw [h]
  show (5033165 / 8388608 : ℚ) ≠ max 0 (min (1 / 2 + 1 / 10) 1)
  norm_num

/-- C2, amended. For every stored value `v`, a release of the intensity or
sharpness increase button stores `max(0, min(r, 1))` where `r` is the
floating-point sum `v + 0.1` (formed in double precision, rounded to single
precision), and of the decrease button the same with the floating-point
difference; a release of a duration button stores `max(0, r)`, with no upper
clamp.  In each case the stored result is within `(|v| + 1) / 2^23` of the
exact `max(0, min(v ± 0.1, 1))`, respectively `max(0, v ± 0.1)`. -/
theorem handler_result_rounded (s : HelloApp) :
    ((fire s (release .intensity_increase))._intensity = max 0 (min (addTenth s._intensity) 1) ∧
      |(fire s (release .intensity_increase))._intensity -
        max 0 (min (s._intensity + 1 / 10) 1)| ≤ (|s._intensity| + 1) / 2 ^ 23) ∧
    ((fire s (release .intensity_decrease))._intensity = max 0 (min (subTenth s._intensity) 1) ∧
      |(fire s (release .intensity_decrease))._intensity -
        max 0 (min (s._intensity - 1 / 10) 1)| ≤ (|s._intensity| + 1) / 2 ^ 23) ∧
    ((fire s (release .sharpness_increase))._sharpness = max 0 (min (addTenth s._sharpness) 1) ∧
      |(fire s (release .sharpness_increase))._sharpness -
        max 0 (min (s._sharpness + 1 / 10) 1)| ≤ (|s._sharpness| + 1) / 2 ^ 23) ∧
    ((fire s (release .sharpness_decrease))._sharpness = max 0 (min (subTenth s._sharpness) 1) ∧
      |(fire s (release .sharpness_decrease))._sharpness -
        max 0 (min (s._sharpness - 1 / 10) 1)| ≤ (|s._sharpness| + 1) / 2 ^ 23) ∧
    ((fire s (release .duration_increase))._duration = max 0 (addTenth s._duration) ∧
      |(fire s (release .duration_increase))._duration -
        max 0 (s._duration + 1 / 10)| ≤ (|s._duration| + 1) / 2 ^ 23) ∧
    ((fire s (release .duration_decrease))._duration = max 0 (subTenth s._duration) ∧
      |(fire s (release .duration_decrease))._duration -
        max 0 (s._duration - 1 / 10)| ≤ (|s._duration| + 1) / 2 ^ 23) :=
  ⟨⟨rfl, (clamp_lip _ _).trans (addTenth_err _)⟩,
   ⟨rfl, (clamp_lip _ _).trans (subTenth_err _)⟩,
   ⟨rfl, (clamp_lip _ _).trans (addTenth_err _)⟩,
   ⟨rfl, (clamp_lip _ _).trans (subTenth_err _)⟩,
   ⟨rfl, (max_zero_lip _ _).trans (addTenth_err _)⟩,
   ⟨rfl, (max_zero_lip _ _).trans (subTenth_err _)⟩⟩

/-! ## C3: step size -/

/-- C3, as stated, fails.  At the in-range state `sampleTop` (intensity `1`,
duration `0`) a release of the intensity increase button leaves intensity at
`1`, not `1 + 0.1`, and a release of the duration decrease button leaves
duration at `0`, not `0 - 0.1`; and at the in-range state `sample` (intensity
`0.5`), away from both bounds, the step of an increase is
`5033165/8388608 - 1/2`, which is not `0.1`. -/
theorem step_exact_fails :
    InRange sampleTop ∧
    (fire sampleTop (release .intensity_increase))._intensity = 1 ∧
    (fire sampleTop (release .intensity_increase))._intensity ≠ sampleTop._intensity + 1 / 10 ∧
    (fire sampleTop (release .duration_decrease))._duration = 0 ∧
    (fire sampleTop (release .duration_decrease))._duration ≠ sampleTop._duration - 1 / 10 ∧
    InRange sample ∧
    (fire sample (release .intensity_increase))._intensity ≠ sample._intensity + 1 / 10 := by
  have h1 : (fire sampleTop (release .intensity_increase))._intensity = 1 := by
    show max 0 (min (addTenth 1) 1) = 1
    rw [min_eq_right (one_le_addTenth (by norm_num))]; norm_num
  have h2 : (fire sampleTop (release .duration_decrease))._duration = 0 := by
    show max 0 (subTenth 0) = 0
    exact max_eq_left (subTenth_nonpos (by norm_num))
  have h3 : (fire sample (release .intensity_increase))._intensity = 5033165 / 8388608 := by
    show max 0 (min (addTenth (1 / 2)) 1) = _
    rw [addTenth_half]; norm_num
  refine ⟨sampleTop_inRange, h1, ?_, h2, ?_, sample_inRange, ?_⟩
  · rw [h1]; show (1 : ℚ) ≠ 1 + 1 / 10; norm_num
  · rw [h2]; show (0 : ℚ) ≠ 0 - 1 / 10; norm_num
  · rw [h3]; show (5033165 / 8388608 : ℚ) ≠ 1 / 2 + 1 / 10; norm_num

/-- C3, amended. For every in-range state, a release of an increase button
changes its parameter by `+0.1` up to the single-precision rounding error (at
most `1/2^22` for intensity and sharpness, at most `(old + 1)/2^23` for
duration) whenever `old + 0.1` stays within the parameter's range (always, for
duration), and otherwise leaves it exactly at the upper bound `1`; a release
of a decrease button changes it by `-0.1` up to the same error whenever the
old value is at least `0.1`, and otherwise leaves it exactly at the lower
bound `0`. -/
theorem step_clamped (s : HelloApp) (h : InRange s) :
    (if s._intensity + 1 / 10 ≤ 1
      then |(fire s (release .intensity_increase))._intensity - (s._intensity + 1 / 10)|
        ≤ 1 / 2 ^ 22
      else (fire s (release .intensity_increase))._intensity = 1) ∧
    (if 1 / 10 ≤ s._intensity
      then |(fire s (release .intensity_decrease))._intensity - (s._intensity - 1 / 10)|
        ≤ 1 / 2 ^ 22
      else (fire s (release .intensity_decrease))._intensity = 0) ∧
    (if s._sharpness + 1 / 10 ≤ 1
      then |(fire s (release .sharpness_increase))._sharpness - (s._sharpness + 1 / 10)|
        ≤ 1 / 2 ^ 22
      else (fire s (release .sharpness_increase))._sharpness = 1) ∧
    (if 1 / 10 ≤ s._sharpness
      then |(fire s (release .sharpness_decrease))._sharpness - (s._sharpness - 1 / 10)|
        ≤ 1 / 2 ^ 22
      else (fire s (release .sharpness_decrease))._sharpness = 0) ∧
    |(fire s (release .duration_increase))._duration - (s._duration + 1 / 10)|
      ≤ (s._duration + 1) / 2 ^ 23 ∧
    (if 1 / 10 ≤ s._duration
      then |(fire s (release .duration_decrease))._duration - (s._duration - 1 / 10)|
        ≤ (s._duration + 1) / 2 ^ 23
      else (fire s (release .duration_decrease))._duration = 0) := by
  obtain ⟨⟨hi0, hi1⟩, ⟨hs0, hs1⟩, hd⟩ := h
  have up : ∀ v : ℚ, 0 ≤ v → v ≤ 1 →
      (if v + 1 / 10 ≤ 1 then |max 0 (min (addTenth v) 1) - (v + 1 / 10)| ≤ 1 / 2 ^ 22
        else max 0 (min (addTenth v) 1) = 1) := by
    intro v h0 h1
    split_ifs with hc
    · have e := (clamp_lip (addTenth v) (v + 1 / 10)).trans (addTenth_err v)
      have hx : max 0 (min (v + 1 / 10) 1) = v + 1 / 10 := by
        rw [min_eq_left hc, max_eq_right (by linarith)]
      rw [hx, abs_of_nonneg h0] at e
      refine e.trans ?_
      norm_num; linarith
    · rw [min_eq_right (one_le_addTenth (by linarith))]; norm_num
  have down : ∀ v : ℚ, 0 ≤ v → v ≤ 1 →
      (if 1 / 10 ≤ v then |max 0 (min (subTenth v) 1) - (v - 1 / 10)| ≤ 1 / 2 ^ 22
        else max 0 (min (subTenth v) 1) = 0) := by
    intro v h0 h1
    split_ifs with hc
    · have e := (clamp_lip (subTenth v) (v - 1 / 10)).trans (subTenth_err v)
      have hx : max 0 (min (v - 1 / 10) 1) = v - 1 / 10 := by
        rw [min_eq_left (by linarith), max_eq_right (by linarith)]
      rw [hx, abs_of_nonneg h0] at e
      refine e.trans ?_
      norm_num; linarith
    · have hn := subTenth_nonpos (not_le.1 hc)
      rw [min_eq_left (by linarith)]; exact max_eq_left hn
  refine ⟨up _ hi0 hi1, down _ hi0 hi1, up _ hs0 hs1, down _ hs0 hs1, ?_, ?_⟩
  · have e := (max_zero_lip (addTenth s._duration) (s._duration + 1 / 10)).trans
      (addTenth_err s._duration)
    have hx : max 0 (s._duration + 1 / 10) = s._duration + 1 / 10 :=
      max_eq_right (by linarith)
    rw [hx, abs_of_nonneg hd] at e
    exact e
  · split_ifs with hc
    · have e := (max_zero_lip (subTenth s._duration) (s._duration - 1 / 10)).trans
        (subTenth_err s._duration)
      have hx : max 0 (s._duration - 1 / 10) = s._duration - 1 / 10 :=
        max_eq_right (by linarith)
      rw [hx, abs_of_nonneg hd] at e
      exact e
    · exact max_eq_left (subTenth_nonpos (not_le.1 hc))

/-- C3 (amended) at the sample state, where every step stays in range. -/
theorem step_clamped_witness :
    InRange sample ∧
    (if sample._intensity + 1 / 10 ≤ 1
      then |(fire sample (release .intensity_increase))._intensity -
        (sample._intensity + 1 / 10)| ≤ 1 / 2 ^ 22
      else (fire sample (release .intensity_increase))._intensity = 1) :=
  ⟨sample_inRange, (step_clamped sample sample_inRange).1⟩

end HelloApp

/-! ## Invariants of event sequences -/

namespace HelloApp

/-- One event does not bring intensity above `1`. -/
theorem fire_intensity_le {s : HelloApp} (h : s._intensity ≤ 1) (e : Event) :
    (fire s e)._intensity ≤ 1 := by
  obtain ⟨b, down⟩ := e
  cases down
  · cases b
    · exact h
    · exact h
    · exact (clamp_mem _).2
    · exact (clamp_mem _).2
    · exact h
    · exact h
    · exact h
    · exact h
  · have : HelloApp.fire s ⟨b, true⟩ = s := listener_down b _ s
    rw [this]; exact h

/-- One event does not bring sharpness above `1`. -/
theorem fire_sharpness_le {s : HelloApp} (h : s._sharpness ≤ 1) (e : Event) :
    (fire s e)._sharpness ≤ 1 := by
  obtain ⟨b, down⟩ := e
  cases down
  · cases b
    · exact h
    · exact h
    · exact h
    · exact h
    · exact (clamp_mem _).2
    · exact (clamp_mem _).2
    · exact h
    · exact h
  · have : HelloApp.fire s ⟨b, true⟩ = s := listener_down b _ s
    rw [this]; exact h

theorem run_intensity_le {s : HelloApp} (h : s._intensity ≤ 1) (evs : List Event) :
    (run s evs)._intensity ≤ 1 := by
  induction evs generalizing s with
  | nil => exact h
  | cons e evs ih => exact ih (fire_intensity_le h e)

theorem run_sharpness_le {s : HelloApp} (h : s._sharpness ≤ 1) (evs : List Event) :
    (run s evs)._sharpness ≤ 1 := by
  induction evs generalizing s with
  | nil => exact h
  | cons e evs ih => exact ih (fire_sharpness_le h e)

theorem labelsTrack_fire {s : HelloApp} (h : LabelsTrack s) (e : Event) :
    LabelsTrack (fire s e) := by
  obtain ⟨b, down⟩ := e
  cases down
  · cases b <;> intro p <;> cases p <;>
      first
        | exact h .intensity
        | exact h .sharpness
        | exact h .duration
        | rfl
  · have : HelloApp.fire s ⟨b, true⟩ = s := listener_down b _ s
    rw [this]; exact h

theorem labelsTrack_run {s : HelloApp} (h : LabelsTrack s) (evs : List Event) :
    LabelsTrack (run s evs) := by
  induction evs generalizing s with
  | nil => exact h
  | cons e evs ih => exact ih (labelsTrack_fire h e)

theorem buildScene_labels (s : HelloApp) : LabelsTrack (buildScene s) := by
  intro p; cases p <;> simp [buildScene, call, set_value, label, value]

end HelloApp

/-! ## C4: how far the duration grows -/

namespace HelloApp

theorem run_concat (s : HelloApp) (xs : List Event) (e : Event) :
    run s (xs ++ [e]) = fire (run s xs) e := by
  simp [run, List.foldl_append]

/-- The run of `n + 1` equal events is the run of `n` of them followed by one
more. -/
theorem run_replicate_succ (s : HelloApp) (e : Event) (n : ℕ) :
    run s (List.replicate (n + 1) e) = fire (run s (List.replicate n e)) e := by
  rw [List.replicate_succ', run_concat]

/-- The difference does not rise above `2 ^ 21` either. -/
theorem subTenth_le_sat {x : ℚ} (h : x ≤ 2 ^ 21) : subTenth x ≤ 2 ^ 21 := by
  have l1 := lit_0_1_bounds.1
  have hy : toDouble (x - lit_0_1) ≤ (4503599627370496 : ℤ) * 2 ^ ((21 : ℤ) - ((53 : ℕ) - 1)) := by
    apply roundTo_le_of_le 4503599627370496 (by norm_num) (by norm_num) (by norm_num)
    norm_num; norm_num at h; linarith
  have := roundTo_le_of_le (p := 24) (l := -126) (e := 21) (q := toDouble (x - lit_0_1))
    8388608 (by norm_num) (by norm_num) (by norm_num) (by norm_num at hy ⊢; exact hy)
  unfold subTenth toFloat
  norm_num at this ⊢
  exact this

/-- One event does not bring the duration above `2 ^ 21`. -/
theorem fire_duration_le_sat {s : HelloApp} (h : s._duration ≤ 2 ^ 21) (e : Event) :
    (fire s e)._duration ≤ 2 ^ 21 := by
  obtain ⟨b, down⟩ := e
  cases down
  · cases b
    · exact h
    · exact h
    · exact h
    · exact h
    · exact h
    · exact h
    · exact max_le (by norm_num) (addTenth_le_sat h)
    · exact max_le (by norm_num) (subTenth_le_sat h)
  · have : HelloApp.fire s ⟨b, true⟩ = s := listener_down b _ s
    rw [this]; exact h

theorem run_duration_le_sat {s : HelloApp} (h : s._duration ≤ 2 ^ 21) (evs : List Event) :
    (run s evs)._duration ≤ 2 ^ 21 := by
  induction evs generalizing s with
  | nil => exact h
  | cons e evs ih => exact ih (fire_duration_le_sat h e)

/-- The duration stays non-negative under releases of the increase button. -/
theorem increases_nonneg (s : HelloApp) (hd : 0 ≤ s._duration) (n : ℕ) :
    0 ≤ (run s (List.replicate n (release .duration_increase)))._duration := by
  cases n with
  | zero => exact hd
  | succ n => rw [run_replicate_succ]; exact le_max_left _ _

/-- Every release of the increase button below `2 ^ 21` gains at least `0.03`. -/
theorem increases_progress (s : HelloApp) (hd : 0 ≤ s._duration) (n : ℕ) :
    min (s._duration + 3 * n / 100) (2 ^ 21) ≤
      (run s (List.replicate n (release .duration_increase)))._duration := by
  induction n with
  | zero => exact (min_le_left _ _).trans (by simp [run])
  | succ n ih =>
    rw [run_replicate_succ]
    have h0 := increases_nonneg s hd n
    have hp := addTenth_progress h0
    have hm : addTenth (run s (List.replicate n (release .duration_increase)))._duration ≤
        (fire (run s (List.replicate n (release .duration_increase)))
          (release .duration_increase))._duration := le_max_right _ _
    refine le_trans ?_ (hp.trans hm)
    push_cast
    refine le_min ?_ (min_le_right _ _)
    rcases min_le_iff.1 ih with h | h
    · exact (min_le_left _ _).trans (by linarith)
    · exact (min_le_right _ _).trans (by linarith)

/-- After `n` releases of the increase button the duration is `d + n * 0.1` up
to the accumulated rounding error. -/
theorem increases_err (s : HelloApp) (hd : 0 ≤ s._duration) (n : ℕ) (hn : n ≤ 2 ^ 22) :
    |(run s (List.replicate n (release .duration_increase)))._duration -
        (s._duration + n * (1 / 10))| ≤ n * (s._duration + n * (1 / 10) + 1) / 2 ^ 22 := by
  induction n with
  | zero => simp [run]
  | succ n ih =>
    have hn' : n ≤ 2 ^ 22 := by omega
    have hnq : (n : ℚ) + 1 ≤ 2 ^ 22 := by exact_mod_cast hn
    have ih := ih hn'
    have h0 := increases_nonneg s hd n
    rw [run_replicate_succ]
    set x := (run s (List.replicate n (release .duration_increase)))._duration with hx
    have hstep : |(fire (run s (List.replicate n (release .duration_increase)))
        (release .duration_increase))._duration - (x + 1 / 10)| ≤ (x + 1) / 2 ^ 23 := by
      have e := (max_zero_lip (addTenth x) (x + 1 / 10)).trans (addTenth_err x)
      have hmx : max 0 (x + 1 / 10) = x + 1 / 10 := max_eq_right (by linarith)
      rw [hmx, abs_of_nonneg h0] at e
      exact e
    set y := (fire (run s (List.replicate n (release .duration_increase)))
        (release .duration_increase))._duration with hy
    have hnn : (0 : ℚ) ≤ n := Nat.cast_nonneg n
    have hA : 0 ≤ s._duration + n * (1 / 10) + 1 := by positivity
    have ht : (n : ℚ) * (s._duration + n * (1 / 10) + 1) / 2 ^ 22 ≤
        s._duration + n * (1 / 10) + 1 := by
      rw [div_le_iff₀ (by positivity)]
      calc (n : ℚ) * (s._duration + n * (1 / 10) + 1)
          ≤ 2 ^ 22 * (s._duration + n * (1 / 10) + 1) :=
            mul_le_mul_of_nonneg_right (by linarith) hA
        _ = _ := by ring
    have hgoal : ((n + 1 : ℕ) : ℚ) * (s._duration + ((n + 1 : ℕ) : ℚ) * (1 / 10) + 1) / 2 ^ 22 =
        (n : ℚ) * (s._duration + n * (1 / 10) + 1) / 2 ^ 22 +
          (s._duration + n * (1 / 10) + 1) / 2 ^ 22 + ((n : ℚ) + 1) / 10 / 2 ^ 22 := by
      push_cast; ring
    rw [hgoal]
    rw [abs_le] at ih hstep ⊢
    push_cast
    constructor <;> norm_num at ih hstep ht ⊢ <;> linarith [ih.1, ih.2, hstep.1, hstep.2]

/-- C4, as stated, fails.  In the in-range state `sampleSat` the duration is
`2^21 = 2097152`; one release of the duration increase button leaves it at
`2^21`, not at `2^21 + 1 * 0.1`.  And from the in-range state `sample`
(duration `0.5`) no event sequence brings the duration above the bound
`B = 2^21`. -/
theorem duration_saturates :
    InRange sampleSat ∧
    (run sampleSat (List.replicate 1 (release .duration_increase)))._duration = 2 ^ 21 ∧
    (run sampleSat (List.replicate 1 (release .duration_increase)))._duration ≠
      sampleSat._duration + (1 : ℕ) * (1 / 10) ∧
    0 ≤ sample._duration ∧
    ∀ evs : List Event, ¬ (2 ^ 21 < (run sample evs)._duration) := by
  have h1 : (run sampleSat (List.replicate 1 (release .duration_increase)))._duration =
      2 ^ 21 := by
    show max 0 (addTenth (2 ^ 21)) = 2 ^ 21
    rw [addTenth_sat]; norm_num
  refine ⟨?_, h1, ?_, sample_inRange.2.2, ?_⟩
  · simp only [InRange, sampleSat]; norm_num
  · rw [h1]; show (2 ^ 21 : ℚ) ≠ 2 ^ 21 + (1 : ℕ) * (1 / 10); norm_num
  · intro evs
    exact not_lt.2 (run_duration_le_sat (by show (1 / 2 : ℚ) ≤ 2 ^ 21; norm_num) evs)

/-- C4, amended. For every state with duration `d ≥ 0`: after `n ≤ 2^22`
consecutive releases of the duration increase button the duration is
`d + n * 0.1` up to an accumulated rounding error of at most
`n * (d + n * 0.1 + 1) / 2^22`; for every bound `B` below `2^21 = 2097152`
some finite event sequence brings the duration above `B`; but no event
sequence brings the duration from at most `2^21` to above `2^21`, where the
single-precision sum stops changing; and no event sequence brings intensity or
sharpness from at most `1` to above `1`. -/
theorem duration_growth (s : HelloApp) (hd : 0 ≤ s._duration) :
    (∀ n : ℕ, n ≤ 2 ^ 22 →
      |(run s (List.replicate n (release .duration_increase)))._duration -
        (s._duration + n * (1 / 10))| ≤ n * (s._duration + n * (1 / 10) + 1) / 2 ^ 22) ∧
    (∀ B : ℚ, B < 2 ^ 21 → ∃ evs : List Event, B < (run s evs)._duration) ∧
    (∀ (t : HelloApp) (evs : List Event),
        t._duration ≤ 2 ^ 21 → (run t evs)._duration ≤ 2 ^ 21) ∧
    (∀ t : HelloApp, t._duration = 2 ^ 21 →
        (fire t (release .duration_increase))._duration = 2 ^ 21) ∧
    (∀ (t : HelloApp) (evs : List Event),
        (t._intensity ≤ 1 → (run t evs)._intensity ≤ 1) ∧
        (t._sharpness ≤ 1 → (run t evs)._sharpness ≤ 1)) := by
  refine ⟨increases_err s hd, ?_, fun t evs h => run_duration_le_sat h evs, ?_, ?_⟩
  · intro B hB
    obtain ⟨n, hn⟩ := exists_nat_gt ((B - s._duration) * 100 / 3)
    refine ⟨List.replicate n (release .duration_increase), ?_⟩
    refine lt_of_lt_of_le (lt_min ?_ hB) (increases_progress s hd n)
    rw [div_lt_iff₀ (by norm_num)] at hn
    linarith
  · intro t ht
    show max 0 (addTenth t._duration) = 2 ^ 21
    rw [ht, addTenth_sat]; norm_num
  · intro t evs
    exact ⟨fun h => run_intensity_le h evs, fun h => run_sharpness_le h evs⟩

/-- C4 (amended) at the sample state: three releases bring the duration from
`1/2` to `1/2 + 3 * 0.1` up to rounding, and the sample event sequence keeps
intensity at most `1`. -/
theorem duration_growth_witness :
    0 ≤ sample._duration ∧
    |(run sample (List.replicate 3 (release .duration_increase)))._duration -
        (sample._duration + (3 : ℕ) * (1 / 10))| ≤
      (3 : ℕ) * (sample._duration + (3 : ℕ) * (1 / 10) + 1) / 2 ^ 22 ∧
    (run sample sampleEvents)._intensity ≤ 1 :=
  ⟨sample_inRange.2.2, (duration_growth sample sample_inRange.2.2).1 3 (by norm_num),
    ((duration_growth sample sample_inRange.2.2).2.2.2.2 sample sampleEvents).1
      sample_inRange.1.2⟩

/-! ## C6: the value labels track the stored values -/

/-- C6. After `buildScene` (from any state of the application object), and
after every event of every sequence of button events that follows, each of the
three value labels shows its parameter's current stored value in fixed
notation with exactly one digit after the decimal point: a minus sign exactly
for a negative value, the decimal digits of the integer part, a point and one
digit, denoting the multiple of `1/10` nearest to the stored value. -/
theorem labels_track (s : HelloApp) (evs : List Event) :
    (∀ p : Param, ShowsOneDecimal (label p (buildScene s)) (value p (buildScene s))) ∧
    (∀ (k : ℕ) (p : Param),
      ShowsOneDecimal (label p (run (buildScene s) (evs.take k)))
        (value p (run (buildScene s) (evs.take k)))) := by
  constructor
  · intro p
    rw [buildScene_labels s p]; exact set_value_text_shows _
  · intro k p
    rw [labelsTrack_run (buildScene_labels s) (evs.take k) p]
    exact set_value_text_shows _

end HelloApp

/-! ## C5: the play buttons pass the current parameters to the haptics engine -/

namespace HelloApp

/-- One event from an in-range state appends calls that are all in range. -/
theorem fire_calls {s : HelloApp} (h : InRange s) (e : Event) :
    ∃ new : List EngineCall, (fire s e).calls = s.calls ++ new ∧ ∀ c ∈ new, HapticOk c := by
  obtain ⟨b, down⟩ := e
  cases down
  · obtain ⟨hi, hs, hd⟩ := h
    cases b
    · exact ⟨[.playTransient s._intensity s._sharpness], rfl, by
        intro c hc; rw [List.mem_singleton] at hc; subst hc; exact ⟨hi, hs⟩⟩
    · exact ⟨[.playContinuous s._intensity s._sharpness s._duration], rfl, by
        intro c hc; rw [List.mem_singleton] at hc; subst hc; exact ⟨hi, hs, hd⟩⟩
    all_goals
      exact ⟨[.culog _], rfl, by
        intro c hc; rw [List.mem_singleton] at hc; subst hc; exact trivial⟩
  · have : HelloApp.fire s ⟨b, true⟩ = s := listener_down b _ s
    rw [this]; exact ⟨[], by simp, by simp⟩

/-- An event sequence from an in-range state appends calls that are all in
range. -/
theorem run_calls {s : HelloApp} (h : InRange s) (evs : List Event) :
    ∃ new : List EngineCall, (run s evs).calls = s.calls ++ new ∧ ∀ c ∈ new, HapticOk c := by
  induction evs generalizing s with
  | nil => exact ⟨[], by simp [run], by simp⟩
  | cons e evs ih =>
    obtain ⟨n1, h1, ok1⟩ := fire_calls h e
    obtain ⟨n2, h2, ok2⟩ := ih (inRange_fire h e)
    refine ⟨n1 ++ n2, ?_, ?_⟩
    · rw [run_cons, h2, h1, List.append_assoc]
    · intro c hc
      rcases List.mem_append.1 hc with hc | hc
      · exact ok1 c hc
      · exact ok2 c hc

/-- C5. For every state `t`, a release of the play-transient button issues
exactly one call, `playTransient(intensity, sharpness)` with the current values,
and a release of the play-continuous button exactly one call,
`playContinuous(intensity, sharpness, duration)`; neither changes a parameter or
a label.  Consequently, from an in-range state `s`, every haptic call issued
during any event sequence has intensity and sharpness in `[0,1]` and duration
`≥ 0`. -/
theorem haptics_receive_current (s : HelloApp) (evs : List Event) (h : InRange s) :
    (∀ t : HelloApp, fire t (release .transient) =
        { t with calls := t.calls ++ [.playTransient t._intensity t._sharpness] }) ∧
    (∀ t : HelloApp, fire t (release .continuous) =
        { t with calls := t.calls ++ [.playContinuous t._intensity t._sharpness t._duration] }) ∧
    (∃ new : List EngineCall, (run s evs).calls = s.calls ++ new ∧
        ∀ c ∈ new, HapticOk c) :=
  ⟨fun _ => rfl, fun _ => rfl, run_calls h evs⟩

/-- C5 at the sample state and the sample event sequence. -/
theorem haptics_receive_current_witness :
    InRange sample ∧
    (∃ new : List EngineCall, (run sample sampleEvents).calls = sample.calls ++ new ∧
        ∀ c ∈ new, HapticOk c) :=
  ⟨sample_inRange, (haptics_receive_current sample sampleEvents sample_inRange).2.2⟩

/-! ## C8: press events are no-ops -/

/-- C8. For every state and each of the eight listeners, an event with
`down = true` returns the state unchanged: the three parameters, the three
label texts and the trace of engine calls (so no haptic call and no log
output) are what they were; a release of the same button, by contrast, always
issues one engine call. -/
theorem press_noop (s : HelloApp) (b : Button) :
    fire s (press b) = s ∧
    listener b b.key true s = s ∧
    (fire s (press b)).calls = s.calls ∧
    (∀ p : Param, value p (fire s (press b)) = value p s ∧
        label p (fire s (press b)) = label p s) ∧
    (fire s (release b)).calls.length = s.calls.length + 1 := by
  have h : fire s (press b) = s := listener_down b _ s
  refine ⟨h, listener_down b _ s, by rw [h], fun p => by rw [h]; exact ⟨rfl, rfl⟩, ?_⟩
  cases b <;>
    simp [fire, release, listener, transient_listener, continuous_listener,
      intensity_increase_listener, intensity_decrease_listener,
      sharpness_increase_listener, sharpness_decrease_listener,
      duration_increase_listener, duration_decrease_listener, set_value, call]

/-! ## C9: the handlers of different parameters are independent -/

/-- A release of a button of parameter `p` leaves every other parameter and
its label alone. -/
theorem fire_other {s : HelloApp} {b : Button} {p q : Param}
    (hb : b.param = some p) (hq : q ≠ p) :
    value q (fire s (release b)) = value q s ∧ label q (fire s (release b)) = label q s := by
  cases b <;> cases p <;> cases q <;> simp [Button.param] at hb <;>
    first
      | exact absurd rfl hq
      | exact ⟨rfl, rfl⟩

/-- An event that is not a release of one of `p`'s buttons leaves `p` alone. -/
theorem fire_not_own {s : HelloApp} {p : Param} {e : Event} (h : ownRelease p e = false) :
    value p (fire s e) = value p s := by
  obtain ⟨b, down⟩ := e
  cases down
  · cases b <;> cases p <;> first
      | rfl
      | (exfalso; revert h; decide)
  · have : HelloApp.fire s ⟨b, true⟩ = s := listener_down b _ s
    rw [this]

/-- A release of one of `p`'s buttons computes the new value of `p` from the
old value of `p` alone. -/
theorem fire_own {s t : HelloApp} {p : Param} (e : Event) (h : value p s = value p t) :
    value p (fire s e) = value p (fire t e) := by
  obtain ⟨b, down⟩ := e
  cases down
  · cases b <;> cases p <;> first
      | exact h
      | (simp only [value] at h
         simp only [value, fire, listener, intensity_increase_listener,
           intensity_decrease_listener, sharpness_increase_listener,
           sharpness_decrease_listener, duration_increase_listener,
           duration_decrease_listener, set_value, call, Bool.false_eq_true, if_false, h])
  · have h1 : HelloApp.fire s ⟨b, true⟩ = s := listener_down b _ s
    have h2 : HelloApp.fire t ⟨b, true⟩ = t := listener_down b _ t
    rw [h1, h2]; exact h

/-- The final value of `p` is that of the run restricted to the releases of
`p`'s own buttons, from any state that agrees on `p`. -/
theorem run_filter {s t : HelloApp} {p : Param} (evs : List Event)
    (h : value p s = value p t) :
    value p (run s evs) = value p (run t (evs.filter (ownRelease p))) := by
  induction evs generalizing s t with
  | nil => exact h
  | cons e evs ih =>
    by_cases ho : ownRelease p e = true
    · rw [List.filter_cons_of_pos ho, run_cons, run_cons]
      exact ih (fire_own e h)
    · rw [List.filter_cons_of_neg ho, run_cons]
      exact ih ((fire_not_own (Bool.not_eq_true _ ▸ ho)).trans h)

/-- C9. For every state, a release of an increase or decrease button of
parameter `p` leaves the other two parameters and their labels unchanged and
appends exactly one call to the trace, a log line and not a haptic call.  And
the final value of each parameter after an event sequence depends only on the
subsequence of releases of that parameter's own two buttons: two runs that
start with the same value of `p` and have the same such subsequence end with
the same value of `p`. -/
theorem handlers_independent (s t : HelloApp) (evs evs' : List Event) (p : Param)
    (hv : value p s = value p t)
    (hf : evs.filter (ownRelease p) = evs'.filter (ownRelease p)) :
    (∀ (u : HelloApp) (b : Button) (q r : Param), b.param = some q → r ≠ q →
        value r (fire u (release b)) = value r u ∧
        label r (fire u (release b)) = label r u) ∧
    (∀ (u : HelloApp) (b : Button) (q : Param), b.param = some q →
        ∃ text : String, (fire u (release b)).calls = u.calls ++ [.culog text] ∧
          (EngineCall.culog text).isHaptic = false) ∧
    value p (run s evs) = value p (run s (evs.filter (ownRelease p))) ∧
    value p (run s evs) = value p (run t evs') := by
  refine ⟨fun u b q r hb hr => fire_other hb hr, ?_, run_filter evs rfl, ?_⟩
  · intro u b q hb
    cases b <;> simp [Button.param] at hb <;> exact ⟨_, rfl, rfl⟩
  · rw [run_filter evs hv, hf, ← run_filter evs' rfl]

/-- C9 at the sample states: `sample` and `sampleTop` agree on sharpness, and
the sample event sequence has the same sharpness releases as the two-event
sequence of just those releases. -/
theorem handlers_independent_witness :
    (value .sharpness sample = value .sharpness sampleTop ∧
      sampleEvents.filter (ownRelease .sharpness) =
        [release .sharpness_decrease, release .sharpness_increase].filter
          (ownRelease .sharpness)) ∧
    value .sharpness (run sample sampleEvents) =
      value .sharpness
        (run sampleTop [release .sharpness_decrease, release .sharpness_increase]) :=
  ⟨⟨rfl, by decide⟩,
    (handlers_independent sample sampleTop sampleEvents
      [release .sharpness_decrease, release .sharpness_increase] .sharpness rfl
      (by decide)).2.2.2⟩

/-! ## C7: where the parent call stands in `onStartup` and `onShutdown` -/

theorem buildScene_calls (s : HelloApp) :
    (buildScene s).calls = s.calls ++ buildSceneTrace := by
  simp [buildScene, call, set_value, buildSceneTrace]

theorem onStartup_calls (env : Env) (s : HelloApp) :
    callsMade (onStartup env) s =
      [.getDisplaySize, .scene2Alloc, .spriteBatchAlloc, .setClearColor 229 229 229 255,
       .assetManagerAlloc, .attach .Texture, .attach .Font, .attach .SceneNode,
       .attach .WidgetValue, .loadDirectory "json/assets.json", .inputActivate env.device]
      ++ buildSceneTrace ++
      [.applicationOnStartup, .displayGetSafeBounds,
       .culog (areaText "Safe" env.displaySafeBounds), .getSafeBounds,
       .culog (areaText "Safe" env.safeBounds), .getDisplayBounds,
       .culog (areaText "Full" env.displayBounds), .hapticsStart] := by
  simp [callsMade, onStartup, call, buildScene_calls]

theorem onShutdown_calls (env : Env) (s : HelloApp) :
    callsMade (onShutdown env) s =
      [.inputDeactivate env.device, .applicationOnShutdown, .hapticsStop] := by
  simp [callsMade, onShutdown, call]

/-- C7 fails on the code. On every platform and from every state, the calls
`onStartup` issues after `Application::onStartup` are seven (three bounds
queries, three log lines and `Haptics::start`), so the last call of `onStartup`
is `Haptics::start`; and `onShutdown` issues `Haptics::stop` after
`Application::onShutdown`, so its last call is `Haptics::stop`. -/
theorem parent_call_not_last (env : Env) (s : HelloApp) :
    callsAfter .applicationOnStartup (callsMade (onStartup env) s) =
      [.displayGetSafeBounds, .culog (areaText "Safe" env.displaySafeBounds),
       .getSafeBounds, .culog (areaText "Safe" env.safeBounds),
       .getDisplayBounds, .culog (areaText "Full" env.displayBounds), .hapticsStart] ∧
    (callsMade (onStartup env) s).getLast? = some .hapticsStart ∧
    (callsMade (onStartup env) s).getLast? ≠ some .applicationOnStartup ∧
    callsAfter .applicationOnShutdown (callsMade (onShutdown env) s) = [.hapticsStop] ∧
    (callsMade (onShutdown env) s).getLast? = some .hapticsStop ∧
    (callsMade (onShutdown env) s).getLast? ≠ some .applicationOnShutdown := by
  rw [onStartup_calls, onShutdown_calls]
  refine ⟨?_, ?_, ?_, ?_, ?_, ?_⟩ <;>
    simp [callsAfter, buildSceneTrace, List.dropWhile, List.getLast?]

end HelloApp
